import Mathlib

/-!
Shallow embedding of `brainfuck.py`, a Brainfuck interpreter expressed as a
TensorFlow graph.  Byte values are modelled as `Nat` (the source tensors are
`uint8`, so all cell values are below 256 and cell arithmetic wraps mod 256);
int32 pointers are modelled as `Int`; the runtime `InvalidArgumentError` that a
graph op can raise is modelled as `Option` (`none` = error); the unbounded
`tf.while_loop` is modelled with an explicit fuel parameter.
-/

/-- Item lookup `l[i]` on a 1-D tensor, as executed by the strided-slice
kernel: an index in `[0, len)` reads directly, a negative index in
`[-len, 0)` is canonicalized Python-style by adding the length, and any
index outside `[-len, len)` is a runtime bounds error (`none`). -/
def tfIndex (l : List Nat) (i : Int) : Option Nat :=
  if 0 ≤ i ∧ i < (l.length : Int) then some (l.getD i.toNat 0)
  else if -(l.length : Int) ≤ i ∧ i < 0 then some (l.getD (i + l.length).toNat 0)
  else none

/-- The interpreter state (`State` in the source): code pointer, memory
pointer, input pointer, memory tape, input buffer and accumulated output. -/
structure State where
  code_ptr : Int
  mem_ptr : Int
  input_ptr : Int
  mem : List Nat
  inputs : List Nat
  output_str : List Nat
  deriving DecidableEq, Repr

/-- `State.jump`: set the code pointer. -/
def State.jump (st : State) (addr : Int) : State :=
  { st with code_ptr := addr }

/-- `State.next`: advance the code pointer. -/
def State.next (st : State) : State :=
  st.jump (st.code_ptr + 1)

/-- `State.add_mem_ptr`: add a value to the memory pointer. -/
def State.add_mem_ptr (st : State) (offset : Int) : State :=
  { st with mem_ptr := st.mem_ptr + offset }

/-- `State.add_input_ptr`: add a value to the input pointer. -/
def State.add_input_ptr (st : State) (offset : Int) : State :=
  { st with input_ptr := st.input_ptr + offset }

/-- `State.read_mem`: get the current memory cell value, `self.mem[self.mem_ptr]`. -/
def State.read_mem (st : State) : Option Nat :=
  tfIndex st.mem st.mem_ptr

/-- `State.write_mem`: `tf.where(tf.equal(tf.range(mem_size), mem_ptr), tiled value, mem)` —
an element-wise select that replaces the cell whose index equals `mem_ptr`
and is a total no-op when no index matches. -/
def State.write_mem (st : State) (value : Nat) : State :=
  let newMem := (List.range st.mem.length).map
    (fun (j : Nat) => if (j : Int) = st.mem_ptr then value else st.mem.getD j 0)
  { st with mem := newMem }

/-- `State.add_mem`: add a value to the current cell; the addition is `uint8`
addition, which wraps modulo 256.  The read can fail (bounds error). -/
def State.add_mem (st : State) (value : Nat) : Option State :=
  st.read_mem.map (fun v => st.write_mem ((v + value) % 256))

/-- `State.write_output`: append one byte to the output string (the 256-entry
`chr` table lookup is the identity on `uint8` values). -/
def State.write_output (st : State) (value : Nat) : State :=
  { st with output_str := st.output_str ++ [value] }

/-- `State.init_state`: code pointer 0, memory cursor `memory_size // 2`,
input pointer 0, `memory_size` zero cells, decoded input bytes, empty output. -/
def State.init_state (input : List Nat) (memory_size : Nat) : State :=
  { code_ptr := 0
    mem_ptr := (memory_size / 2 : Nat)
    input_ptr := 0
    mem := List.replicate memory_size 0
    inputs := input
    output_str := [] }

/-- Handler for `<` (byte 60) and `>` (byte 62): move the memory pointer and
advance the code pointer. -/
def adjust_mem_pointer (inst : Nat) (st : State) : State :=
  (st.add_mem_ptr (if inst = 60 then -1 else 1)).next

/-- Handler for `+` (byte 43) and `-` (byte 45): add `1` resp. `0xff` to the
current cell (uint8, so `0xff` is `-1` mod 256) and advance the code pointer. -/
def adjust_mem (inst : Nat) (st : State) : Option State :=
  (st.add_mem (if inst = 45 then 255 else 1)).map State.next

/-- Loop body and exit of the bracket scan `tf.while_loop`, with explicit
fuel: while the counter is positive, read `code[p + d]`, add `d` to the
counter on `[` (byte 91), subtract `d` on `]` (byte 93), and move `p` by `d`;
on exit return the position.  `some none` is a runtime bounds error from the
read; the outer `none` is exhausted fuel (never reached for `d = ±1`, proved
below). -/
def matchingBracketAux (code : List Nat) (d : Int) : Nat → Int → Int → Option (Option Int)
  | 0, _, _ => none
  | fuel + 1, c, p =>
    if c ≤ 0 then some (some p)
    else
      match tfIndex code (p + d) with
      | none => some none
      | some b =>
        matchingBracketAux code d fuel (if b = 91 then c + d else if b = 93 then c - d else c)
          (p + d)

/-- `matching_bracket`: find the code position of the matching bracket, the
counter starting at 1.  The fuel `2 * len + 2` is enough for the scan to
reach its answer or run off the buffer (proved below), so `none` is exactly
the runtime bounds error of an unbalanced scan. -/
def matching_bracket (code : List Nat) (code_ptr : Int) (direction : Int) : Option Int :=
  (matchingBracketAux code direction (2 * code.length + 2) 1 code_ptr).getD none

/-- Handler for `[` (byte 91): if the current cell is 0 jump past the matching
`]`, else fall through. -/
def loop_open (code : List Nat) (st : State) : Option State :=
  st.read_mem.bind (fun v =>
    if v = 0 then (matching_bracket code st.code_ptr 1).map (fun q => st.jump (q + 1))
    else some (st.jump (st.code_ptr + 1)))

/-- Handler for `]` (byte 93): if the current cell is nonzero jump past the
matching `[`, else fall through. -/
def loop_close (code : List Nat) (st : State) : Option State :=
  st.read_mem.bind (fun v =>
    if v ≠ 0 then (matching_bracket code st.code_ptr (-1)).map (fun q => st.jump (q + 1))
    else some (st.jump (st.code_ptr + 1)))

/-- Handler for `,` (byte 44): take `inputs[input_ptr]` if the input pointer is
within the input, else the byte 0; write it to the current cell, then
unconditionally advance the input pointer and the code pointer. -/
def read_input (st : State) : Option State :=
  (if st.input_ptr < (st.inputs.length : Int) then tfIndex st.inputs st.input_ptr
   else some 0).map
    (fun b => ((st.write_mem b).add_input_ptr 1).next)

/-- Handler for `.` (byte 46): append the current cell to the output and
advance the code pointer. -/
def write_output (st : State) : Option State :=
  st.read_mem.map (fun v => (State.write_output st v).next)

/-- `step_program`: read the instruction byte at `code_ptr` and dispatch
(`tf.case` with first-match semantics); any unrecognized byte is the default
case, which only advances the code pointer. -/
def step_program (code : List Nat) (st : State) : Option State :=
  (tfIndex code st.code_ptr).bind (fun inst =>
    if inst = 60 ∨ inst = 62 then some (adjust_mem_pointer inst st)
    else if inst = 43 ∨ inst = 45 then adjust_mem inst st
    else if inst = 91 then loop_open code st
    else if inst = 93 then loop_close code st
    else if inst = 44 then read_input st
    else if inst = 46 then write_output st
    else some st.next)

/-- The `tf.while_loop` of `run_program`, with explicit fuel: step while
`code_ptr < len(code)`, and on loop exit return the accumulated output. -/
def runAux (code : List Nat) : Nat → State → Option (List Nat)
  | 0, st =>
    if st.code_ptr < (code.length : Int) then none else some st.output_str
  | fuel + 1, st =>
    if st.code_ptr < (code.length : Int) then (step_program code st).bind (runAux code fuel)
    else some st.output_str

/-- `run_program`: build the initial state, iterate `step_program` while
`code_ptr < len(code)`, and return the final state's output. -/
def run_program (code input : List Nat) (memory_size : Nat) (fuel : Nat) : Option (List Nat) :=
  runAux code fuel (State.init_state input memory_size)

/-- Bytes a single step appends to the output, as the spec describes them:
one byte equal to the current cell when the instruction is `.` (byte 46),
nothing for any other instruction. -/
def emitted (code : List Nat) (st : State) : List Nat :=
  match tfIndex code st.code_ptr with
  | some inst =>
    if inst = 46 then
      match st.read_mem with
      | some v => [v]
      | none => []
    else []
  | none => []

/-- The per-step emissions of a run, concatenated in execution order (same
loop structure and fuel as `runAux`). -/
def traceAux (code : List Nat) : Nat → State → Option (List Nat)
  | 0, st => if st.code_ptr < (code.length : Int) then none else some []
  | fuel + 1, st =>
    if st.code_ptr < (code.length : Int) then
      (step_program code st).bind (fun st' => (traceAux code fuel st').map (emitted code st ++ ·))
    else some []

/-- Modelled from the spec (Bracket Resolver), for refinement comparison with
`matchingBracketAux`: starting at `from_ptr + direction` and advancing by
`direction` each step, a loop-open byte adds `direction` to the counter and a
loop-close byte subtracts it; the scan stops as soon as the counter reaches 0
and returns the scan position at that moment. -/
def matchSpecAux (code : List Nat) (d : Int) : Nat → Int → Int → Option (Option Int)
  | 0, _, _ => none
  | n + 1, c, p =>
    match tfIndex code (p + d) with
    | none => some none
    | some b =>
      let c' := if b = 91 then c + d else if b = 93 then c - d else c
      if c' = 0 then some (some (p + d)) else matchSpecAux code d n c' (p + d)

/-- Modelled from the spec (Bracket Resolver): the whole scan, with the
counter initialized to 1 and the same fuel as `matching_bracket`. -/
def matchSpec (code : List Nat) (from_ptr : Int) (direction : Int) : Option Int :=
  (matchSpecAux code direction (2 * code.length + 2) 1 from_ptr).getD none

/-- Contribution of one code byte to the bracket-nesting count: `+1` for `[`,
`-1` for `]`, `0` otherwise. -/
def bracketDelta (b : Nat) : Int :=
  if b = 91 then 1 else if b = 93 then -1 else 0

/-- Net bracket-nesting count of the first `n` bytes of the program. -/
def bracketSum (code : List Nat) (n : Nat) : Int :=
  ((code.take n).map bracketDelta).sum

/-! ### Helper lemmas about the tape operations -/

lemma getD_map_range (f : Nat → Nat) (n i : Nat) (h : i < n) :
    (((List.range n).map f).getD i 0) = f i := by
  rw [List.getD_eq_getElem _ _ (by simpa using h)]
  simp

lemma write_mem_length (st : State) (v : Nat) :
    (st.write_mem v).mem.length = st.mem.length := by
  simp [State.write_mem]

lemma write_mem_mem_oob (st : State) (v : Nat)
    (h : st.mem_ptr < 0 ∨ (st.mem.length : Int) ≤ st.mem_ptr) :
    (st.write_mem v).mem = st.mem := by
  apply List.ext_getElem
  · simp [State.write_mem]
  · intro i h1 h2
    simp only [State.write_mem, List.getElem_map, List.getElem_range]
    have hi : (i : Int) ≠ st.mem_ptr := by
      simp only [State.write_mem, List.length_map, List.length_range] at h1
      rcases h with h | h <;> omega
    rw [if_neg hi, List.getD_eq_getElem _ _ h2]

lemma write_mem_getD_self (st : State) (v : Nat)
    (h0 : 0 ≤ st.mem_ptr) (h1 : st.mem_ptr < (st.mem.length : Int)) :
    (st.write_mem v).mem.getD st.mem_ptr.toNat 0 = v := by
  have hlt : st.mem_ptr.toNat < st.mem.length := by omega
  simp only [State.write_mem]
  rw [getD_map_range _ _ _ hlt, if_pos (by omega)]

lemma write_mem_getD_other (st : State) (v : Nat) (i : Nat)
    (hi : i < st.mem.length) (hne : (i : Int) ≠ st.mem_ptr) :
    (st.write_mem v).mem.getD i 0 = st.mem.getD i 0 := by
  simp only [State.write_mem]
  rw [getD_map_range _ _ _ hi, if_neg hne]

lemma read_mem_inbounds (st : State)
    (h0 : 0 ≤ st.mem_ptr) (h1 : st.mem_ptr < (st.mem.length : Int)) :
    st.read_mem = some (st.mem.getD st.mem_ptr.toNat 0) := by
  simp [State.read_mem, tfIndex, h0, h1]

lemma read_mem_neg_wrap (st : State)
    (h0 : -(st.mem.length : Int) ≤ st.mem_ptr) (h1 : st.mem_ptr < 0) :
    st.read_mem = some (st.mem.getD (st.mem_ptr + st.mem.length).toNat 0) := by
  simp only [State.read_mem, tfIndex]
  rw [if_neg (by omega), if_pos ⟨h0, h1⟩]

lemma read_mem_oob_none (st : State)
    (h : st.mem_ptr < -(st.mem.length : Int) ∨ (st.mem.length : Int) ≤ st.mem_ptr) :
    st.read_mem = none := by
  rcases h with h | h
  · simp only [State.read_mem, tfIndex]
    rw [if_neg (by omega), if_neg (by omega)]
  · simp only [State.read_mem, tfIndex]
    rw [if_neg (by omega), if_neg (by omega)]

/-! ### C10: out-of-bounds writes are total silent no-ops -/

/-- C10: for every state and every memory pointer outside `[0, memory_size)`,
`write_mem` is total, raises no error, and returns a tape identical to the one
before the call (the element-wise selection matches no index), the tape length
staying `memory_size`. -/
theorem write_mem_oob_noop (st : State) (v : Nat)
    (h : st.mem_ptr < 0 ∨ (st.mem.length : Int) ≤ st.mem_ptr) :
    (st.write_mem v).mem = st.mem ∧ (st.write_mem v).mem.length = st.mem.length :=
  ⟨write_mem_mem_oob st v h, write_mem_length st v⟩

/-- Witness for C10 at a concrete out-of-range pointer. -/
theorem write_mem_oob_noop_witness :
    (State.write_mem (State.mk 0 5 0 [1, 2] [] []) 9).mem = [1, 2] :=
  (write_mem_oob_noop (State.mk 0 5 0 [1, 2] [] []) 9 (by decide)).1

/-! ### C9: unrecognized instruction bytes advance `code_ptr` only -/

/-- C9: for every state whose current instruction byte is none of the eight
active bytes, `step_program` advances `code_ptr` by exactly 1 and leaves every
other field (mem_ptr, input_ptr, mem, inputs, output) unchanged. -/
theorem unrecognized_byte_noop (code : List Nat) (st : State) (inst : Nat)
    (hread : tfIndex code st.code_ptr = some inst)
    (hno : ¬(inst = 60 ∨ inst = 62 ∨ inst = 43 ∨ inst = 45 ∨ inst = 91 ∨ inst = 93 ∨
      inst = 44 ∨ inst = 46)) :
    step_program code st = some { st with code_ptr := st.code_ptr + 1 } := by
  push_neg at hno
  obtain ⟨h1, h2, h3, h4, h5, h6, h7, h8⟩ := hno
  simp [step_program, hread, h1, h2, h3, h4, h5, h6, h7, h8, State.next, State.jump]

/-- Witness for C9: the byte `A` (65) in a one-byte program is a no-op that
advances `code_ptr` only. -/
theorem unrecognized_byte_noop_witness :
    step_program [65] (State.mk 0 0 0 [7] [3] [4]) =
    some (State.mk 1 0 0 [7] [3] [4]) :=
  unrecognized_byte_noop [65] _ 65 (by decide) (by decide)

/-! ### C5: what actually happens at an out-of-bounds memory access -/

/-- Counterexample to C5 as stated: the program `>,` on `memory_size = 1`
moves `mem_ptr` to 1 (out of bounds) and then executes `,` on empty input,
which performs a memory write at the out-of-bounds pointer; the claim demands
a fatal bounds error, but the run completes normally with empty output — the
write was a silent no-op. -/
theorem oob_write_completes_normally :
    run_program [62, 44] [] 1 5 = some [] := by decide

/-- C5 as amended: a memory READ with `mem_ptr` outside
`[-memory_size, memory_size)` is a fatal bounds error; a read with `mem_ptr`
in `[-memory_size, 0)` does not fail but wraps Python-style to
`mem_ptr + memory_size`; an in-range read returns the addressed cell; and a
memory WRITE with `mem_ptr` outside `[0, memory_size)` is never an error but
a silent no-op that leaves the tape unchanged. -/
theorem mem_bounds_amended :
    (∀ st : State, st.mem_ptr < -(st.mem.length : Int) ∨ (st.mem.length : Int) ≤ st.mem_ptr →
      st.read_mem = none) ∧
    (∀ st : State, -(st.mem.length : Int) ≤ st.mem_ptr → st.mem_ptr < 0 →
      st.read_mem = some (st.mem.getD (st.mem_ptr + st.mem.length).toNat 0)) ∧
    (∀ st : State, 0 ≤ st.mem_ptr → st.mem_ptr < (st.mem.length : Int) →
      st.read_mem = some (st.mem.getD st.mem_ptr.toNat 0)) ∧
    (∀ (st : State) (v : Nat), st.mem_ptr < 0 ∨ (st.mem.length : Int) ≤ st.mem_ptr →
      (st.write_mem v).mem = st.mem) :=
  ⟨read_mem_oob_none, read_mem_neg_wrap, read_mem_inbounds, write_mem_mem_oob⟩

/-- Witness for the amended C5 at concrete states: a far-out read fails, a
negative in-range read wraps to the end of the tape, and an out-of-range
write leaves the tape unchanged. -/
theorem mem_bounds_amended_witness :
    State.read_mem (State.mk 0 3 0 [1, 2] [] []) = none ∧
    State.read_mem (State.mk 0 (-1) 0 [1, 2] [] []) = some 2 ∧
    (State.write_mem (State.mk 0 2 0 [1, 2] [] []) 9).mem = [1, 2] := by
  refine ⟨mem_bounds_amended.1 _ (by decide), ?_, mem_bounds_amended.2.2.2 _ 9 (by decide)⟩
  have h := mem_bounds_amended.2.1
    (State.mk 0 (-1) 0 [1, 2] [] []) (by decide) (by decide)
  simpa using h

/-! ### C4: reading exhausted input -/

/-- Counterexample to C4 as stated: with empty input, executing `,` advances
`input_ptr` from 0 to 1 — the claim that `input_ptr` is left unchanged (that
`add_input_ptr(1)` runs only in the non-exhausted branch) is false: the
advance is unconditional. -/
theorem read_input_exhausted_cex :
    (step_program [44] (State.mk 0 0 0 [7] [] [])).map State.input_ptr = some 1 ∧
    (step_program [44] (State.mk 0 0 0 [7] [] [])).map State.input_ptr ≠ some 0 := by decide

/-- C4 as amended: for every state in which `input_ptr ≥ len(inputs)`,
executing `,` raises no error, writes byte 0 to `mem[mem_ptr]` (when the
memory pointer is in bounds; an out-of-bounds write is dropped), advances
`code_ptr` by 1 — and also advances `input_ptr` by 1, since the
`add_input_ptr(1)` is applied in both branches. -/
theorem read_input_exhausted (code : List Nat) (st : State)
    (hread : tfIndex code st.code_ptr = some 44)
    (hip : (st.inputs.length : Int) ≤ st.input_ptr) :
    ∃ st', step_program code st = some st' ∧
      st'.code_ptr = st.code_ptr + 1 ∧
      st'.input_ptr = st.input_ptr + 1 ∧
      st'.mem_ptr = st.mem_ptr ∧
      st'.inputs = st.inputs ∧
      st'.output_str = st.output_str ∧
      st'.mem.length = st.mem.length ∧
      (0 ≤ st.mem_ptr → st.mem_ptr < (st.mem.length : Int) →
        st'.mem.getD st.mem_ptr.toNat 0 = 0) := by
  refine ⟨((st.write_mem 0).add_input_ptr 1).next, ?_, ?_⟩
  · simp [step_program, hread, read_input, if_neg (by omega : ¬ st.input_ptr < (st.inputs.length : Int))]
  · refine ⟨rfl, rfl, rfl, rfl, rfl, write_mem_length st 0, fun h0 h1 => ?_⟩
    simpa using write_mem_getD_self st 0 h0 h1

/-- Witness for the amended C4 at a concrete state with exhausted input. -/
theorem read_input_exhausted_witness :
    ∃ st', step_program [44] (State.mk 0 0 0 [7] [] []) = some st' ∧
      st'.code_ptr = 1 ∧ st'.input_ptr = 1 ∧ st'.mem_ptr = 0 ∧
      st'.inputs = [] ∧ st'.output_str = [] ∧ st'.mem.length = 1 ∧
      st'.mem.getD 0 0 = 0 := by
  obtain ⟨st', h1, h2, h3, h4, h5, h6, h7, h8⟩ :=
    read_input_exhausted [44] (State.mk 0 0 0 [7] [] []) (by decide) (by decide)
  exact ⟨st', h1, h2, h3, h4, h5, h6, h7, h8 (by decide) (by decide)⟩

/-! ### C3: cell arithmetic wraps modulo 256 -/

/-- C3: executing `+` (43) or `-` (45) on an in-bounds cell stores
`(old + 1) mod 256` resp. `(old - 1) mod 256`; in particular `+` on 255
gives 0 and `-` on 0 gives 255. -/
theorem adjust_mem_wraps (code : List Nat) (st : State) (inst : Nat)
    (hread : tfIndex code st.code_ptr = some inst) (hinst : inst = 43 ∨ inst = 45)
    (h0 : 0 ≤ st.mem_ptr) (h1 : st.mem_ptr < (st.mem.length : Int)) :
    ∃ st', step_program code st = some st' ∧
      st'.mem.getD st.mem_ptr.toNat 0 =
        (st.mem.getD st.mem_ptr.toNat 0 + (if inst = 43 then 1 else 255)) % 256 ∧
      (st'.mem.getD st.mem_ptr.toNat 0 : Int) =
        ((st.mem.getD st.mem_ptr.toNat 0 : Int) + (if inst = 43 then 1 else -1)) % 256 ∧
      (inst = 43 → st.mem.getD st.mem_ptr.toNat 0 = 255 → st'.mem.getD st.mem_ptr.toNat 0 = 0) ∧
      (inst = 45 → st.mem.getD st.mem_ptr.toNat 0 = 0 → st'.mem.getD st.mem_ptr.toNat 0 = 255) := by
  have hv := read_mem_inbounds st h0 h1
  have hw : ∀ w : Nat, (st.write_mem w).next.mem.getD st.mem_ptr.toNat 0 = w := fun w => by
    have := write_mem_getD_self st w h0 h1
    simpa [State.next, State.jump] using this
  rcases hinst with h | h <;> subst h
  · refine ⟨(st.write_mem ((st.mem.getD st.mem_ptr.toNat 0 + 1) % 256)).next, ?_, ?_, ?_, ?_, ?_⟩
    · simp [step_program, hread, adjust_mem, State.add_mem, hv]
    · simpa using hw ((st.mem.getD st.mem_ptr.toNat 0 + 1) % 256)
    · rw [hw ((st.mem.getD st.mem_ptr.toNat 0 + 1) % 256)]
      norm_num
    · intro _ h255
      rw [hw ((st.mem.getD st.mem_ptr.toNat 0 + 1) % 256), h255]
    · intro h45
      exact absurd h45 (by decide)
  · refine ⟨(st.write_mem ((st.mem.getD st.mem_ptr.toNat 0 + 255) % 256)).next, ?_, ?_, ?_, ?_, ?_⟩
    · simp [step_program, hread, adjust_mem, State.add_mem, hv]
    · simpa using hw ((st.mem.getD st.mem_ptr.toNat 0 + 255) % 256)
    · rw [hw ((st.mem.getD st.mem_ptr.toNat 0 + 255) % 256)]
      norm_num
      omega
    · intro h43
      exact absurd h43 (by decide)
    · intro _ h255
      rw [hw ((st.mem.getD st.mem_ptr.toNat 0 + 255) % 256), h255]

/-- Witness for C3: `+` on a cell holding 255 wraps to 0. -/
theorem adjust_mem_wraps_witness :
    ∃ st', step_program [43] (State.mk 0 0 0 [255] [] []) = some st' ∧
      st'.mem.getD 0 0 = 0 := by
  obtain ⟨st', hstep, _, _, h43, _⟩ :=
    adjust_mem_wraps [43] (State.mk 0 0 0 [255] [] []) 43 (by decide) (Or.inl rfl)
      (by decide) (by decide)
  exact ⟨st', hstep, by simpa using h43 rfl (by decide)⟩

/-! ### C1: structure of `run_program` -/

/-- C1: for every program, input and positive `memory_size`, `run_program`
iterates the step function on the initial state (code_ptr 0, input_ptr 0,
`memory_size` zero cells, memory cursor `memory_size / 2`, empty output):
while `code_ptr < len(code)` each loop iteration threads the stepped state
into the next, and on loop exit the accumulated output field is returned. -/
theorem run_program_structure (code input : List Nat) (memory_size fuel : Nat)
    (_hms : 0 < memory_size) :
    run_program code input memory_size fuel =
      runAux code fuel (State.init_state input memory_size) ∧
    (State.init_state input memory_size).code_ptr = 0 ∧
    (State.init_state input memory_size).input_ptr = 0 ∧
    (State.init_state input memory_size).mem = List.replicate memory_size 0 ∧
    (State.init_state input memory_size).mem_ptr = ((memory_size / 2 : Nat) : Int) ∧
    (State.init_state input memory_size).output_str = [] ∧
    (∀ (st : State) (f : Nat), st.code_ptr < (code.length : Int) →
      runAux code (f + 1) st = (step_program code st).bind (runAux code f)) ∧
    (∀ (st : State) (f : Nat), ¬st.code_ptr < (code.length : Int) →
      runAux code f st = some st.output_str) := by
  refine ⟨rfl, rfl, rfl, rfl, rfl, rfl, ?_, ?_⟩
  · intro st f h
    simp [runAux, h]
  · intro st f h
    cases f <;> simp [runAux, h]

/-- Witness for C1 at a concrete program, input, memory size and fuel. -/
theorem run_program_structure_witness :
    run_program [46] [] 2 3 = runAux [46] 3 (State.init_state [] 2) ∧
    runAux [46] 1 (State.init_state [] 2) =
      (step_program [46] (State.init_state [] 2)).bind (runAux [46] 0) := by
  have h := run_program_structure [46] [] 2 3 (by decide)
  exact ⟨h.1, h.2.2.2.2.2.2.1 _ 0 (by decide)⟩

/-! ### C6: the returned output is exactly the bytes emitted by `.` steps -/

lemma step_output (code : List Nat) (st st' : State)
    (h : step_program code st = some st') :
    st'.output_str = st.output_str ++ emitted code st := by
  rw [step_program, Option.bind_eq_some] at h
  obtain ⟨inst, hread, h⟩ := h
  by_cases h60 : inst = 60 ∨ inst = 62
  · rw [if_pos h60] at h
    injection h with h
    subst h
    rcases h60 with rfl | rfl <;>
      simp [adjust_mem_pointer, State.add_mem_ptr, State.next, State.jump, emitted, hread]
  · rw [if_neg h60] at h
    by_cases h43 : inst = 43 ∨ inst = 45
    · rw [if_pos h43] at h
      rw [adjust_mem, Option.map_eq_some'] at h
      obtain ⟨s1, hs1, h⟩ := h
      rw [State.add_mem, Option.map_eq_some'] at hs1
      obtain ⟨v, _, hs1⟩ := hs1
      subst hs1
      subst h
      rcases h43 with rfl | rfl <;>
        simp [State.next, State.jump, State.write_mem, emitted, hread]
    · rw [if_neg h43] at h
      by_cases h91 : inst = 91
      · subst h91
        rw [if_pos rfl] at h
        rw [loop_open, Option.bind_eq_some] at h
        obtain ⟨v, _, h⟩ := h
        split_ifs at h
        · rw [Option.map_eq_some'] at h
          obtain ⟨q, _, h⟩ := h
          subst h
          simp [State.jump, emitted, hread]
        · injection h with h
          subst h
          simp [State.jump, emitted, hread]
      · rw [if_neg h91] at h
        by_cases h93 : inst = 93
        · subst h93
          rw [if_pos rfl] at h
          rw [loop_close, Option.bind_eq_some] at h
          obtain ⟨v, _, h⟩ := h
          split_ifs at h
          · rw [Option.map_eq_some'] at h
            obtain ⟨q, _, h⟩ := h
            subst h
            simp [State.jump, emitted, hread]
          · injection h with h
            subst h
            simp [State.jump, emitted, hread]
        · rw [if_neg h93] at h
          by_cases h44 : inst = 44
          · subst h44
            rw [if_pos rfl] at h
            rw [read_input, Option.map_eq_some'] at h
            obtain ⟨b, _, h⟩ := h
            subst h
            simp [State.next, State.jump, State.add_input_ptr, State.write_mem, emitted, hread]
          · rw [if_neg h44] at h
            by_cases h46 : inst = 46
            · subst h46
              rw [if_pos rfl] at h
              rw [write_output, Option.map_eq_some'] at h
              obtain ⟨v, hv, h⟩ := h
              subst h
              simp [State.next, State.jump, State.write_output, emitted, hread, hv]
            · rw [if_neg h46] at h
              injection h with h
              subst h
              simp [State.next, State.jump, emitted, hread, h46]

lemma runAux_trace (code : List Nat) :
    ∀ (fuel : Nat) (st : State) (out : List Nat),
      runAux code fuel st = some out →
      ∃ tr, traceAux code fuel st = some tr ∧ out = st.output_str ++ tr := by
  intro fuel
  induction fuel with
  | zero =>
    intro st out h
    rw [runAux] at h
    split_ifs at h with hc
    · injection h with h
      exact ⟨[], by simp [traceAux, hc], by simp [h.symm]⟩
  | succ f ih =>
    intro st out h
    rw [runAux] at h
    split_ifs at h with hc
    · rw [Option.bind_eq_some] at h
      obtain ⟨st', hst, hrun⟩ := h
      obtain ⟨tr', htr', hout⟩ := ih st' out hrun
      refine ⟨emitted code st ++ tr', ?_, ?_⟩
      · simp [traceAux, hc, hst, htr']
      · rw [hout, step_output code st st' hst, List.append_assoc]
    · injection h with h
      exact ⟨[], by simp [traceAux, hc], by simp [h.symm]⟩

/-- C6: whenever a run returns an output, that output is exactly the
concatenation, in execution order, of the per-step emissions — one byte equal
to the current cell for each executed `.` instruction, nothing for any other
instruction (and the initial output is empty), as `emitted` states. -/
theorem run_output_is_trace (code input : List Nat) (memory_size fuel : Nat)
    (out : List Nat) (h : run_program code input memory_size fuel = some out) :
    ∃ tr, traceAux code fuel (State.init_state input memory_size) = some tr ∧ out = tr := by
  obtain ⟨tr, htr, hout⟩ := runAux_trace code fuel (State.init_state input memory_size) out h
  exact ⟨tr, htr, by simpa [State.init_state] using hout⟩

/-- Witness for C6: the program `+.` on empty input outputs exactly its
single-step emission trace `[1]`. -/
theorem run_output_is_trace_witness :
    ∃ tr, traceAux [43, 46] 5 (State.init_state [] 1) = some tr ∧ [1] = tr :=
  run_output_is_trace [43, 46] [] 1 5 [1] (by decide)

/-! ### Termination of the bracket scan -/

lemma tfIndex_some_bounds (l : List Nat) (i : Int) (b : Nat) (h : tfIndex l i = some b) :
    -(l.length : Int) ≤ i ∧ i < (l.length : Int) := by
  unfold tfIndex at h
  split_ifs at h with h1 h2
  · omega
  · omega

lemma tfIndex_nonneg_some (l : List Nat) (i : Int) (b : Nat) (h0 : 0 ≤ i)
    (h : tfIndex l i = some b) :
    i < (l.length : Int) ∧ b = l.getD i.toNat 0 := by
  unfold tfIndex at h
  split_ifs at h with h1 h2
  · injection h with h
    exact ⟨h1.2, h.symm⟩
  · omega

lemma aux_forward_total (code : List Nat) :
    ∀ (fuel : Nat) (c p : Int),
      (if p < -((code.length : Int) + 1) then 1 else ((code.length : Int) - p).toNat + 1) ≤ fuel →
      matchingBracketAux code 1 fuel c p ≠ none := by
  intro fuel
  induction fuel with
  | zero =>
    intro c p hb
    split at hb <;> omega
  | succ f ih =>
    intro c p hb
    rw [matchingBracketAux]
    split_ifs with hc
    · simp
    · cases hr : tfIndex code (p + 1) with
      | none => simp
      | some b =>
        obtain ⟨hlo, hhi⟩ := tfIndex_some_bounds code (p + 1) b hr
        apply ih
        split at hb <;> split <;> omega

lemma aux_backward_total (code : List Nat) :
    ∀ (fuel : Nat) (c p : Int),
      (if (code.length : Int) + 1 < p then 1 else (p + (code.length : Int)).toNat + 1) ≤ fuel →
      matchingBracketAux code (-1) fuel c p ≠ none := by
  intro fuel
  induction fuel with
  | zero =>
    intro c p hb
    split at hb <;> omega
  | succ f ih =>
    intro c p hb
    rw [matchingBracketAux]
    split_ifs with hc
    · simp
    · cases hr : tfIndex code (p + (-1)) with
      | none => simp
      | some b =>
        obtain ⟨hlo, hhi⟩ := tfIndex_some_bounds code (p + (-1)) b hr
        apply ih
        split at hb <;> split <;> omega

lemma matchingBracketAux_total (code : List Nat) (d : Int) (hd : d = 1 ∨ d = -1)
    (c p : Int) : matchingBracketAux code d (2 * code.length + 2) c p ≠ none := by
  rcases hd with rfl | rfl
  · apply aux_forward_total
    split <;> omega
  · apply aux_backward_total
    split <;> omega

/-! ### C7: an unbalanced scan is a signaled error, not an endless loop -/

/-- Counterexample to C7 as stated: `+[` has an unmatched `[`, yet the run
completes normally (the loop body is never entered because the cell is 1, so
the bracket resolver is never invoked) — not every program with unbalanced
brackets produces a malformed-program error. -/
theorem unmatched_bracket_run_completes :
    run_program [43, 91] [] 1 5 = some [] := by decide

/-- C7 as amended: the bracket scan always terminates within its fuel for
`direction = ±1`, so a scan that leaves the program buffer without the counter
reaching zero is signaled as a runtime error rather than scanning forever; in
particular the one-byte program `[` executed with cell 0 fails (for every
fuel), while an unbalanced program whose resolver is never invoked (such as
`+[`) completes normally. -/
theorem unbalanced_scan_errors :
    (∀ (code : List Nat) (d c p : Int), d = 1 ∨ d = -1 →
      matchingBracketAux code d (2 * code.length + 2) c p ≠ none) ∧
    (∀ fuel : Nat, run_program [91] [] 1 (fuel + 1) = none) := by
  constructor
  · intro code d c p hd
    exact matchingBracketAux_total code d hd c p
  · intro fuel
    show runAux [91] (fuel + 1) (State.init_state [] 1) = none
    rw [runAux, if_pos (by decide)]
    rw [show step_program [91] (State.init_state [] 1) = none from by decide]
    rfl

/-- Witness for the amended C7: concrete scan termination and the failing
one-byte program `[`. -/
theorem unbalanced_scan_errors_witness :
    matchingBracketAux [91] 1 4 1 0 ≠ none ∧ run_program [91] [] 1 4 = none :=
  ⟨unbalanced_scan_errors.1 [91] 1 1 0 (Or.inl rfl), unbalanced_scan_errors.2 3⟩

/-! ### C2: the scan agrees with the spec's description of the algorithm -/

lemma aux_imp_spec (code : List Nat) (d : Int) (hd : d = 1 ∨ d = -1) :
    ∀ (fuel : Nat) (c p : Int) (r : Option Int), 1 ≤ c →
      matchingBracketAux code d fuel c p = some r →
      matchSpecAux code d fuel c p = some r := by
  intro fuel
  induction fuel with
  | zero =>
    intro c p r _ h
    rw [matchingBracketAux] at h
    exact absurd h (by simp)
  | succ f ih =>
    intro c p r hc h
    rw [matchingBracketAux, if_neg (by omega)] at h
    rw [matchSpecAux]
    cases hr : tfIndex code (p + d) with
    | none =>
      rw [hr] at h
      injection h with h
      rw [h]
    | some b =>
      rw [hr] at h
      replace h : matchingBracketAux code d f
          (if b = 91 then c + d else if b = 93 then c - d else c) (p + d) = some r := h
      show (if (if b = 91 then c + d else if b = 93 then c - d else c) = 0
          then some (some (p + d))
          else matchSpecAux code d f (if b = 91 then c + d else if b = 93 then c - d else c)
            (p + d)) = some r
      by_cases hz : (if b = 91 then c + d else if b = 93 then c - d else c) = 0
      · rw [hz] at h
        cases f with
        | zero =>
          rw [matchingBracketAux] at h
          exact absurd h (by simp)
        | succ g =>
          rw [matchingBracketAux, if_pos (by omega)] at h
          rw [if_pos hz]
          exact h
      · have hc1 : 1 ≤ (if b = 91 then c + d else if b = 93 then c - d else c) := by
          rcases hd with rfl | rfl <;> split_ifs <;> split_ifs at hz <;> omega
        rw [if_neg hz]
        exact ih _ (p + d) r hc1 h

/-- C2: for direction `+1` or `-1`, `matching_bracket` computes exactly what
the spec's description of the algorithm computes (`matchSpec`, transcribed
from the spec's words): counter from 1, scan from `from_ptr + d` in steps of
`d`, `+d` on loop-open, `-d` on loop-close, stopping as soon as the counter
reaches 0 and returning the scan position at that moment. -/
theorem matching_bracket_matches_spec (code : List Nat) (p d : Int)
    (hd : d = 1 ∨ d = -1) :
    matching_bracket code p d = matchSpec code p d := by
  have htot := matchingBracketAux_total code d hd 1 p
  cases h : matchingBracketAux code d (2 * code.length + 2) 1 p with
  | none => exact absurd h htot
  | some r =>
    have hs := aux_imp_spec code d hd (2 * code.length + 2) 1 p r (by norm_num) h
    rw [matching_bracket, matchSpec, h, hs]

/-- Witness for C2 at a concrete program and both directions. -/
theorem matching_bracket_matches_spec_witness :
    matching_bracket [91, 93] 0 1 = matchSpec [91, 93] 0 1 ∧
    matching_bracket [91, 93] 1 (-1) = matchSpec [91, 93] 1 (-1) :=
  ⟨matching_bracket_matches_spec [91, 93] 0 1 (Or.inl rfl),
   matching_bracket_matches_spec [91, 93] 1 (-1) (Or.inr rfl)⟩

/-! ### C8: bracket resolution is an involution on balanced programs -/

lemma bracketSum_succ (code : List Nat) (n : Nat) (h : n < code.length) :
    bracketSum code (n + 1) = bracketSum code n + bracketDelta (code.getD n 0) := by
  unfold bracketSum
  rw [List.take_succ]
  have h1 : code[n]? = some (code.getD n 0) := by
    rw [List.getElem?_eq_getElem h, List.getD_eq_getElem _ _ h]
  rw [h1]
  simp

lemma bracketDelta_bounds (b : Nat) : -1 ≤ bracketDelta b ∧ bracketDelta b ≤ 1 := by
  unfold bracketDelta
  split_ifs <;> norm_num

lemma scan_forward_spec (code : List Nat) :
    ∀ (fuel : Nat) (c : Int) (p : Nat) (r : Int),
      matchingBracketAux code 1 fuel c (p : Int) = some (some r) → 1 ≤ c →
      ∃ q : Nat, r = (q : Int) ∧ p < q ∧ q < code.length ∧
        c + (bracketSum code (q + 1) - bracketSum code (p + 1)) = 0 ∧
        ∀ s : Nat, p < s → s < q →
          1 ≤ c + (bracketSum code (s + 1) - bracketSum code (p + 1)) := by
  intro fuel
  induction fuel with
  | zero =>
    intro c p r h _
    rw [matchingBracketAux] at h
    exact absurd h (by simp)
  | succ f ih =>
    intro c p r h hc
    rw [matchingBracketAux, if_neg (by omega)] at h
    cases hr : tfIndex code ((p : Int) + 1) with
    | none =>
      rw [hr] at h
      exact absurd h (by simp)
    | some b =>
      rw [hr] at h
      replace h : matchingBracketAux code 1 f
          (if b = 91 then c + 1 else if b = 93 then c - 1 else c) ((p : Int) + 1) =
          some (some r) := h
      obtain ⟨hlt, hb⟩ := tfIndex_nonneg_some code ((p : Int) + 1) b (by omega) hr
      have htn : ((p : Int) + 1).toNat = p + 1 := by omega
      rw [htn] at hb
      have hdelta : (if b = 91 then c + 1 else if b = 93 then c - 1 else c) =
          c + bracketDelta b := by
        unfold bracketDelta
        split_ifs <;> ring
      have hplen : p + 1 < code.length := by omega
      have hstep : bracketSum code (p + 1 + 1) = bracketSum code (p + 1) + bracketDelta b := by
        rw [bracketSum_succ code (p + 1) hplen, hb]
      have hbd := bracketDelta_bounds b
      rw [hdelta] at h
      have hcast : ((p : Int) + 1) = ((p + 1 : Nat) : Int) := by push_cast; ring
      rw [hcast] at h
      by_cases hz : 1 ≤ c + bracketDelta b
      · obtain ⟨q, hq, hpq, hqlen, hsum, hmin⟩ := ih (c + bracketDelta b) (p + 1) r h hz
        refine ⟨q, hq, by omega, hqlen, by omega, ?_⟩
        intro s hs1 hs2
        by_cases hsp : s = p + 1
        · subst hsp
          omega
        · have := hmin s (by omega) hs2
          omega
      · have hz0 : c + bracketDelta b = 0 := by omega
        rw [hz0] at h
        cases f with
        | zero =>
          rw [matchingBracketAux] at h
          exact absurd h (by simp)
        | succ g =>
          rw [matchingBracketAux, if_pos (by norm_num)] at h
          injection h with h
          injection h with h
          refine ⟨p + 1, by omega, by omega, by omega, by omega, ?_⟩
          intro s hs1 hs2
          omega

lemma scan_backward_complete (code : List Nat) :
    ∀ (fuel : Nat) (c : Int) (q p : Nat), p < q → q ≤ code.length → 1 ≤ c →
      c - (bracketSum code q - bracketSum code p) = 0 →
      (∀ s : Nat, p < s → s < q → 1 ≤ c - (bracketSum code q - bracketSum code s)) →
      q - p < fuel →
      matchingBracketAux code (-1) fuel c (q : Int) = some (some (p : Int)) := by
  intro fuel
  induction fuel with
  | zero =>
    intro c q p hpq _ _ _ _ hfuel
    omega
  | succ f ih =>
    intro c q p hpq hqlen hc hsum hmin hfuel
    rw [matchingBracketAux, if_neg (by omega)]
    have hread : tfIndex code ((q : Int) + (-1)) = some (code.getD (q - 1) 0) := by
      unfold tfIndex
      rw [if_pos ⟨by omega, by omega⟩]
      have htn : ((q : Int) + (-1)).toNat = q - 1 := by omega
      rw [htn]
    rw [hread]
    show matchingBracketAux code (-1) f
        (if code.getD (q - 1) 0 = 91 then c + (-1)
          else if code.getD (q - 1) 0 = 93 then c - (-1) else c)
        ((q : Int) + (-1)) = some (some (p : Int))
    have hdelta : (if code.getD (q - 1) 0 = 91 then c + (-1)
        else if code.getD (q - 1) 0 = 93 then c - (-1) else c) =
        c - bracketDelta (code.getD (q - 1) 0) := by
      unfold bracketDelta
      split_ifs <;> ring
    rw [hdelta]
    have hstep : bracketSum code q =
        bracketSum code (q - 1) + bracketDelta (code.getD (q - 1) 0) := by
      have h1 : q - 1 + 1 = q := by omega
      have h2 := bracketSum_succ code (q - 1) (by omega)
      rw [h1] at h2
      exact h2
    have hcast : ((q : Int) + (-1)) = ((q - 1 : Nat) : Int) := by omega
    by_cases hqp : p = q - 1
    · subst hqp
      have hz : c - bracketDelta (code.getD (q - 1) 0) = 0 := by omega
      rw [hz]
      cases f with
      | zero => omega
      | succ g =>
        rw [matchingBracketAux, if_pos (by norm_num)]
        rw [hcast]
    · have h1 : p < q - 1 := by omega
      have hc1 : 1 ≤ c - bracketDelta (code.getD (q - 1) 0) := by
        have := hmin (q - 1) (by omega) (by omega)
        omega
      have happ := ih (c - bracketDelta (code.getD (q - 1) 0)) (q - 1) p h1 (by omega) hc1
        (by omega)
        (fun s hs1 hs2 => by
          have := hmin s hs1 (by omega)
          omega)
        (by omega)
      rw [hcast]
      exact happ

/-- C8: on a forward match that succeeds from a loop-open position `p ≥ 0`,
bracket resolution is an involution — the backward match from the forward
match's result returns `p`. -/
theorem matching_bracket_involution (code : List Nat) (p q : Int)
    (hp : 0 ≤ p) (hb : tfIndex code p = some 91)
    (hm : matching_bracket code p 1 = some q) :
    matching_bracket code q (-1) = some p := by
  have htot := matchingBracketAux_total code 1 (Or.inl rfl) 1 p
  obtain ⟨r, hr⟩ : ∃ r, matchingBracketAux code 1 (2 * code.length + 2) 1 p = some r :=
    Option.ne_none_iff_exists'.mp htot
  have hrq : r = some q := by
    rw [matching_bracket, hr] at hm
    simpa using hm
  subst hrq
  have hpcast : p = (p.toNat : Int) := by omega
  rw [hpcast] at hr
  obtain ⟨qn, hqcast, hpq, hqlen, hsum, hmin⟩ :=
    scan_forward_spec code (2 * code.length + 2) 1 p.toNat q hr (by norm_num)
  obtain ⟨hplen, hb91⟩ := tfIndex_nonneg_some code p 91 hp hb
  have hWp : bracketSum code (p.toNat + 1) = bracketSum code p.toNat + 1 := by
    rw [bracketSum_succ code p.toNat (by omega), ← hb91]
    unfold bracketDelta
    norm_num
  have hWq_step : bracketSum code (qn + 1) =
      bracketSum code qn + bracketDelta (code.getD qn 0) := bracketSum_succ code qn hqlen
  have hdbq := bracketDelta_bounds (code.getD qn 0)
  have hWqge : bracketSum code (p.toNat + 1) ≤ bracketSum code qn := by
    by_cases hqp1 : qn = p.toNat + 1
    · rw [hqp1]
    · have hlast := hmin (qn - 1) (by omega) (by omega)
      have heq : qn - 1 + 1 = qn := by omega
      rw [heq] at hlast
      omega
  have hWq_eq : bracketSum code qn = bracketSum code (p.toNat + 1) := by omega
  have happ := scan_backward_complete code (2 * code.length + 2) 1 qn p.toNat hpq
    (by omega) (by norm_num) (by omega)
    (fun s hs1 hs2 => by
      by_cases hsp : s = p.toNat + 1
      · subst hsp
        omega
      · have hs' := hmin (s - 1) (by omega) (by omega)
        have heq : s - 1 + 1 = s := by omega
        rw [heq] at hs'
        omega)
    (by omega)
  rw [matching_bracket, hqcast, happ]
  rw [hpcast]
  rfl

/-- Witness for C8: in `[[]]` the forward match of position 0 is 3, and the
backward match of 3 is 0 again. -/
theorem matching_bracket_involution_witness :
    matching_bracket [91, 91, 93, 93] 3 (-1) = some 0 :=
  matching_bracket_involution [91, 91, 93, 93] 0 3 (by decide) (by decide) (by decide)
